import Mathlib

/-!
Verification of the key-server (`Servidor-Key-System`): a shallow embedding of
the key lifecycle core — issuance (`POST /gerar`), redemption (`POST /validar`),
the status query (`GET /status`) and the hourly expiry sweep
(`cleanExpiredKeys`) — together with proofs of the specified properties.

Modelling conventions:
  * Timestamps (`Date.now()`) are natural numbers (milliseconds).  JavaScript
    subtraction that may go negative is compared against a positive bound in
    the source (`now - createdAt > day`, `createdAt > now - day`), and on
    those guarded comparisons truncated `Nat` subtraction agrees with the
    JavaScript integer result.
  * A possibly-absent numeric field is an `Option Nat`; the JavaScript
    truthiness test `!x` is `numTruthy` below (absent and `0` are both falsy).
  * The effectful pieces that the handlers consume — the gateway call made by
    `axios.post`, the random key from `generateKey`, and success or failure of
    the `saveKeys` file write — enter the model as explicit arguments
    (`GatewayResult`, `newKey`, `saveOk`); everything downstream of them is
    translated directly from the handler bodies.
-/

namespace KeySystem

/-- Expiry window: `24 * 60 * 60 * 1000` milliseconds, as in the source. -/
def day : Nat := 24 * 60 * 60 * 1000

/-- JavaScript truthiness of a possibly-absent numeric field: `undefined` and
`0` are falsy, every other number is truthy. -/
def numTruthy : Option Nat → Bool
  | none => false
  | some n => !(n == 0)

/-- Whitespace recognised by `String.prototype.trim` (the ASCII part, which is
what the generated keys and realistic inputs contain). -/
def isWs (c : Char) : Bool :=
  c == ' ' || c == '\t' || c == '\n' || c == '\r' || c == '\x0b' || c == '\x0c'

/-- Drop leading and trailing whitespace from a character list. -/
def trimChars (l : List Char) : List Char :=
  ((l.dropWhile isWs).reverse.dropWhile isWs).reverse

/-- Model of JavaScript `key.trim()`. -/
def jsTrim (s : String) : String :=
  ⟨trimChars s.data⟩

/-- Characters allowed in a URL scheme after the leading letter. -/
def isSchemeChar (c : Char) : Bool :=
  c.isAlpha || c.isDigit || c == '+' || c == '-' || c == '.'

/-- Scan for the colon that terminates a URL scheme. -/
def schemeRest : List Char → Bool
  | [] => false
  | c :: cs => if c == ':' then true else isSchemeChar c && schemeRest cs

/-- Models `isValidUrl` in the source, which returns whether `new URL(string)`
does not throw.  Approximated as: the string begins with a syntactically valid
scheme (a letter, then letters, digits, `+`, `-` or `.`, then a colon).  No
claim depends on the exact extension of this predicate beyond its Boolean
gating role in the `/gerar` handler. -/
def isValidUrl (s : String) : Bool :=
  match s.data with
  | [] => false
  | c :: cs => c.isAlpha && schemeRest cs

/-- A key record as stored in `keys.json`: the fields written by the `/gerar`
handler (`key`, `used`, `createdAt`, `shortLink`, `originalLink`) plus the
`usedAt` field that the `/validar` handler adds on redemption.  `createdAt` and
`usedAt` are optional to cover legacy records. -/
structure KeyRecord where
  key : String
  used : Bool
  createdAt : Option Nat := none
  usedAt : Option Nat := none
  shortLink : String := ""
  originalLink : String := ""
deriving Repr, DecidableEq

/-- Body of a `POST /gerar` request; absent fields are `none`. -/
structure GerarReq where
  monetizzyToken : Option String
  link : Option String

/-- Outcome of the `axios.post` call to the shortener gateway:
`ok data` is a response whose `data?.shortened_url` is `data`;
`timeout` is an error with `code === 'ECONNABORTED'`;
`unauthorized` is an error with `response?.status === 401`;
`failure` is any other thrown error. -/
inductive GatewayResult where
  | ok (data : Option String)
  | timeout
  | unauthorized
  | failure
deriving Repr, DecidableEq

/-- Responses of the `/gerar` handler, one constructor per `return res...`
site in the source. -/
inductive GerarResponse where
  | missingToken
  | invalidToken
  | missingLink
  | invalidUrl
  | shortenFailed
  | success (key : String) (shortLink : String)
  | gatewayTimeout
  | gatewayAuth
  | serverError
deriving Repr, DecidableEq

/-- HTTP status code attached to each `/gerar` response in the source. -/
def gerarStatus : GerarResponse → Nat
  | .missingToken => 400
  | .invalidToken => 403
  | .missingLink => 400
  | .invalidUrl => 400
  | .shortenFailed => 400
  | .success _ _ => 200
  | .gatewayTimeout => 408
  | .gatewayAuth => 401
  | .serverError => 500

/-- Responses of the `/validar` handler, one constructor per response site:
`missingKey` (400), `notFound` (404), `alreadyUsed` (200, valid:false),
`expired` (200, valid:false), `valid` (200, valid:true), `serverError`
(500, from the catch block, reached when `saveKeys` throws). -/
inductive ValidarResponse where
  | missingKey
  | notFound
  | alreadyUsed
  | expired
  | valid
  | serverError
deriving Repr, DecidableEq

/-- HTTP status code attached to each `/validar` response in the source. -/
def validarStatus : ValidarResponse → Nat
  | .missingKey => 400
  | .notFound => 404
  | .alreadyUsed => 200
  | .expired => 200
  | .valid => 200
  | .serverError => 500

/-- The `POST /gerar` handler.  `cfgToken` is `MONETIZZY_TOKEN`; `gw` is the
outcome of the gateway call; `saveOk` tells whether `saveKeys` succeeds;
`newKey` is the value produced by `generateKey()` (whose entropy is outside
the model); `now` is `Date.now()`.  Returns the response and the new in-memory
collection.  When `saveKeys` throws, the pushed record stays in memory (the
source does not roll back) and the catch block answers 500. -/
def gerar (cfgToken : String) (gw : GatewayResult) (saveOk : Bool)
    (newKey : String) (now : Nat) (keys : List KeyRecord) (req : GerarReq) :
    GerarResponse × List KeyRecord :=
  match req.monetizzyToken with
  | none => (.missingToken, keys)
  | some tok =>
    if tok == "" then (.missingToken, keys)
    else if !(tok == cfgToken) then (.invalidToken, keys)
    else match req.link with
      | none => (.missingLink, keys)
      | some link =>
        if link == "" then (.missingLink, keys)
        else if !isValidUrl link then (.invalidUrl, keys)
        else match gw with
          | .timeout => (.gatewayTimeout, keys)
          | .unauthorized => (.gatewayAuth, keys)
          | .failure => (.serverError, keys)
          | .ok none => (.shortenFailed, keys)
          | .ok (some url) =>
            let keyObject : KeyRecord :=
              { key := newKey, used := false, createdAt := some now,
                usedAt := none, shortLink := url, originalLink := jsTrim link }
            let keys' := keys ++ [keyObject]
            if saveOk then (.success newKey url, keys') else (.serverError, keys')

/-- In-place mutation `found.used = true; found.usedAt = Date.now()` performed
by `/validar`: `found` is the first record whose `key` equals the trimmed
input, so exactly that record is updated. -/
def markUsed (now : Nat) (tk : String) : List KeyRecord → List KeyRecord
  | [] => []
  | r :: rest =>
    if r.key == tk then { r with used := true, usedAt := some now } :: rest
    else r :: markUsed now tk rest

/-- The `POST /validar` handler.  `saveOk` tells whether `saveKeys` succeeds;
`now` is `Date.now()`; `key` is the request body's `key` field (`none` when
absent).  Returns the response and the new in-memory collection; on a save
failure the in-memory mutation stays (the source does not roll back) and the
catch block answers 500. -/
def validar (saveOk : Bool) (now : Nat) (keys : List KeyRecord)
    (key : Option String) : ValidarResponse × List KeyRecord :=
  match key with
  | none => (.missingKey, keys)
  | some k =>
    if k == "" then (.missingKey, keys)
    else
      let tk := jsTrim k
      match keys.find? (fun r => r.key == tk) with
      | none => (.notFound, keys)
      | some found =>
        if found.used then (.alreadyUsed, keys)
        else if numTruthy found.createdAt && decide (now - found.createdAt.getD 0 > day) then
          (.expired, keys)
        else
          let keys' := markUsed now tk keys
          if saveOk then (.valid, keys') else (.serverError, keys')

/-- The filter predicate of `cleanExpiredKeys`: keep used records, keep
records without a (truthy) `createdAt`, keep records with
`createdAt > now - day`. -/
def keepOnSweep (now : Nat) (keyObj : KeyRecord) : Bool :=
  if keyObj.used then true
  else if !numTruthy keyObj.createdAt then true
  else decide (keyObj.createdAt.getD 0 > now - day)

/-- The hourly sweep `cleanExpiredKeys`: filters the collection with
`keepOnSweep`. -/
def cleanExpiredKeys (now : Nat) (keys : List KeyRecord) : List KeyRecord :=
  List.filter (keepOnSweep now) keys

/-- Whether the sweep calls `saveKeys`: the source compares the filtered
length with the initial length. -/
def sweepSaves (now : Nat) (keys : List KeyRecord) : Bool :=
  !((cleanExpiredKeys now keys).length == keys.length)

/-- The counters returned by `GET /status`. -/
structure Stats where
  total : Nat
  used : Nat
  available : Nat
deriving Repr, DecidableEq

/-- The `GET /status` handler: a pure read over the in-memory collection. -/
def statusOf (keys : List KeyRecord) : Stats :=
  { total := keys.length,
    used := (keys.filter (fun k => k.used)).length,
    available := (keys.filter (fun k => !k.used)).length }

/-- Whether a `/gerar` response is the success response (`success:true`). -/
def isSuccess : GerarResponse → Bool
  | .success _ _ => true
  | _ => false

/-- Whether a `/validar` response is the success response (`valid:true`). -/
def isValidResp : ValidarResponse → Bool
  | .valid => true
  | _ => false

/-- Whether the gateway call failed to deliver a `shortened_url` (a thrown
error, or a response without the expected field). -/
def gatewayFailed : GatewayResult → Bool
  | .ok (some _) => false
  | _ => true

/-- Modelled from the spec: the response the failure-mapping table in the spec
prescribes for each failed gateway outcome (timeout → 408 timeout response,
upstream 401 → 401 response, missing response field → generic 400 response,
anything else → generic 500 response).  Used only to compare the handler
against the spec's table. -/
def specFailureResponse : GatewayResult → GerarResponse
  | .timeout => .gatewayTimeout
  | .unauthorized => .gatewayAuth
  | .ok _ => .shortenFailed
  | .failure => .serverError

/-- Modelled from the spec: the HTTP status code the spec's failure-mapping
table prescribes for each failed gateway outcome. -/
def specFailureStatus : GatewayResult → Nat
  | .timeout => 408
  | .unauthorized => 401
  | .ok _ => 400
  | .failure => 500

/-- Modelled from the spec: the redemption outcome prescribed by the spec's
priority list — not found → 404; used → invalid "already used", no mutation;
`createdAt` present and `now - createdAt > 24h` → invalid "expired", no
mutation, record not deleted; otherwise set `used`/`usedAt`, persist, valid.
Used only to compare the `/validar` handler against the spec's list. -/
def specRedeem (now : Nat) (keys : List KeyRecord) (k : String) :
    ValidarResponse × List KeyRecord :=
  match keys.find? (fun r => r.key == jsTrim k) with
  | none => (.notFound, keys)
  | some found =>
    if found.used then (.alreadyUsed, keys)
    else if numTruthy found.createdAt && decide (now - found.createdAt.getD 0 > day) then
      (.expired, keys)
    else (.valid, markUsed now (jsTrim k) keys)

/-- A concrete well-formed `/gerar` request used in concrete runs. -/
def reqA : GerarReq :=
  { monetizzyToken := some "T", link := some "https://example.com" }

/-- The record that `gerar "T" (.ok (some "s")) true "K" 1 [] reqA` appends. -/
def recA : KeyRecord :=
  { key := "K", used := false, createdAt := some 1, usedAt := none,
    shortLink := "s", originalLink := "https://example.com" }

/-- A concrete already-redeemed record. -/
def recU : KeyRecord :=
  { key := "U", used := true, createdAt := some 1, usedAt := some 2,
    shortLink := "s", originalLink := "https://example.com" }

/-- An unused record whose age at time `2 * day` is exactly the 24-hour
window. -/
def recBoundary : KeyRecord :=
  { key := "B", used := false, createdAt := some day, usedAt := none,
    shortLink := "s", originalLink := "https://example.com" }

/-- States reachable from the empty store by any sequence of issue
(`/gerar`), redeem (`/validar`) and sweep (`cleanExpiredKeys`) operations,
with arbitrary per-operation inputs (times, request bodies, gateway outcomes,
generated keys, save outcomes). -/
inductive Reachable : List KeyRecord → Prop where
  | init : Reachable []
  | issue (cfgToken : String) (gw : GatewayResult) (saveOk : Bool)
      (newKey : String) (now : Nat) (keys : List KeyRecord) (req : GerarReq) :
      Reachable keys → Reachable (gerar cfgToken gw saveOk newKey now keys req).2
  | redeem (saveOk : Bool) (now : Nat) (keys : List KeyRecord) (key : Option String) :
      Reachable keys → Reachable (validar saveOk now keys key).2
  | sweep (now : Nat) (keys : List KeyRecord) :
      Reachable keys → Reachable (cleanExpiredKeys now keys)

/-- Like `Reachable`, but every issue step generates a key that does not
collide with a key already in the collection (the entropy assumption the
source relies on instead of an explicit collision check). -/
inductive ReachableFresh : List KeyRecord → Prop where
  | init : ReachableFresh []
  | issue (cfgToken : String) (gw : GatewayResult) (saveOk : Bool)
      (newKey : String) (now : Nat) (keys : List KeyRecord) (req : GerarReq) :
      ReachableFresh keys → newKey ∉ keys.map KeyRecord.key →
      ReachableFresh (gerar cfgToken gw saveOk newKey now keys req).2
  | redeem (saveOk : Bool) (now : Nat) (keys : List KeyRecord) (key : Option String) :
      ReachableFresh keys → ReachableFresh (validar saveOk now keys key).2
  | sweep (now : Nat) (keys : List KeyRecord) :
      ReachableFresh keys → ReachableFresh (cleanExpiredKeys now keys)

/-- States reachable from the empty store under a non-decreasing clock:
`ReachableT t keys` means `keys` is reachable and every operation so far ran
at a time `≤ t`. -/
inductive ReachableT : Nat → List KeyRecord → Prop where
  | init : ReachableT 0 []
  | issue (t : Nat) (cfgToken : String) (gw : GatewayResult) (saveOk : Bool)
      (newKey : String) (now : Nat) (keys : List KeyRecord) (req : GerarReq) :
      ReachableT t keys → t ≤ now →
      ReachableT now (gerar cfgToken gw saveOk newKey now keys req).2
  | redeem (t : Nat) (saveOk : Bool) (now : Nat) (keys : List KeyRecord)
      (key : Option String) :
      ReachableT t keys → t ≤ now → ReachableT now (validar saveOk now keys key).2
  | sweep (t : Nat) (now : Nat) (keys : List KeyRecord) :
      ReachableT t keys → t ≤ now → ReachableT now (cleanExpiredKeys now keys)

/-- Per-record invariant at clock bound `t`: an unused record has no `usedAt`;
a used record has a `usedAt` no earlier than its `createdAt`; and no record
was created after `t`. -/
def recordInv (t : Nat) (r : KeyRecord) : Prop :=
  (r.used = false → r.usedAt = none) ∧
  (r.used = true → ∃ u, r.usedAt = some u ∧ r.createdAt.getD 0 ≤ u) ∧
  r.createdAt.getD 0 ≤ t

/-- Collection-wide form of `recordInv`. -/
def collInv (t : Nat) (keys : List KeyRecord) : Prop :=
  ∀ r ∈ keys, recordInv t r

/-! ### Structural lemmas about the three operations -/

theorem markUsed_map_key (now : Nat) (tk : String) (keys : List KeyRecord) :
    (markUsed now tk keys).map KeyRecord.key = keys.map KeyRecord.key := by
  induction keys with
  | nil => rfl
  | cons r rest ih =>
    cases h : r.key == tk with
    | true => simp [markUsed, h]
    | false => simp [markUsed, h, ih]

theorem gerar_snd (cfgToken : String) (gw : GatewayResult) (saveOk : Bool)
    (newKey : String) (now : Nat) (keys : List KeyRecord) (mt lk : Option String) :
    (gerar cfgToken gw saveOk newKey now keys ⟨mt, lk⟩).2 = keys ∨
    ∃ url link, lk = some link ∧
      (gerar cfgToken gw saveOk newKey now keys ⟨mt, lk⟩).2 =
        keys ++ [{ key := newKey, used := false, createdAt := some now,
                   usedAt := none, shortLink := url, originalLink := jsTrim link }] := by
  cases mt with
  | none => exact Or.inl rfl
  | some tok =>
    cases h1 : tok == "" with
    | true => exact Or.inl (by simp [gerar, h1])
    | false =>
      cases h2 : tok == cfgToken with
      | false => exact Or.inl (by simp [gerar, h1, h2])
      | true =>
        cases lk with
        | none => exact Or.inl (by simp [gerar, h1, h2])
        | some link =>
          cases h3 : link == "" with
          | true => exact Or.inl (by simp [gerar, h1, h2, h3])
          | false =>
            cases h4 : isValidUrl link with
            | false => exact Or.inl (by simp [gerar, h1, h2, h3, h4])
            | true =>
              cases gw with
              | timeout => exact Or.inl (by simp [gerar, h1, h2, h3, h4])
              | unauthorized => exact Or.inl (by simp [gerar, h1, h2, h3, h4])
              | failure => exact Or.inl (by simp [gerar, h1, h2, h3, h4])
              | ok data =>
                cases data with
                | none => exact Or.inl (by simp [gerar, h1, h2, h3, h4])
                | some url =>
                  cases saveOk with
                  | true =>
                    exact Or.inr ⟨url, link, rfl, by simp [gerar, h1, h2, h3, h4]⟩
                  | false =>
                    exact Or.inr ⟨url, link, rfl, by simp [gerar, h1, h2, h3, h4]⟩

theorem gerar_map_key (cfgToken : String) (gw : GatewayResult) (saveOk : Bool)
    (newKey : String) (now : Nat) (keys : List KeyRecord) (req : GerarReq) :
    ((gerar cfgToken gw saveOk newKey now keys req).2).map KeyRecord.key =
        keys.map KeyRecord.key ∨
    ((gerar cfgToken gw saveOk newKey now keys req).2).map KeyRecord.key =
        keys.map KeyRecord.key ++ [newKey] := by
  rcases req with ⟨mt, lk⟩
  rcases gerar_snd cfgToken gw saveOk newKey now keys mt lk with h | ⟨url, link, _, h⟩
  · exact Or.inl (by rw [h])
  · exact Or.inr (by rw [h]; simp)

theorem validar_snd (saveOk : Bool) (now : Nat) (keys : List KeyRecord)
    (key : Option String) :
    (validar saveOk now keys key).2 = keys ∨
    ∃ k, key = some k ∧
      (validar saveOk now keys key).2 = markUsed now (jsTrim k) keys := by
  cases key with
  | none => exact Or.inl rfl
  | some k =>
    cases hk : k == "" with
    | true => exact Or.inl (by simp [validar, hk])
    | false =>
      cases hf : keys.find? (fun r => r.key == jsTrim k) with
      | none => exact Or.inl (by simp [validar, hk, hf])
      | some found =>
        cases hu : found.used with
        | true => exact Or.inl (by simp [validar, hk, hf, hu])
        | false =>
          cases hexp : numTruthy found.createdAt &&
              decide (now - found.createdAt.getD 0 > day) with
          | true => exact Or.inl (by simp [validar, hk, hf, hu, hexp])
          | false =>
            refine Or.inr ⟨k, rfl, ?_⟩
            cases saveOk with
            | true => simp [validar, hk, hf, hu, hexp]
            | false => simp [validar, hk, hf, hu, hexp]

theorem validar_map_key (saveOk : Bool) (now : Nat) (keys : List KeyRecord)
    (key : Option String) :
    ((validar saveOk now keys key).2).map KeyRecord.key = keys.map KeyRecord.key := by
  rcases validar_snd saveOk now keys key with h | ⟨k, _, h⟩
  · rw [h]
  · rw [h, markUsed_map_key]

theorem find?_markUsed (now : Nat) (tk : String) (keys : List KeyRecord)
    (f : KeyRecord) (h : keys.find? (fun r => r.key == tk) = some f) :
    (markUsed now tk keys).find? (fun r => r.key == tk) =
      some { f with used := true, usedAt := some now } := by
  induction keys with
  | nil => simp at h
  | cons r rest ih =>
    cases hk : r.key == tk with
    | true =>
      rw [List.find?_cons_of_pos (p := fun r => r.key == tk) rest hk] at h
      injection h with h
      subst h
      simp [markUsed, hk, List.find?_cons_of_pos]
    | false =>
      rw [List.find?_cons_of_neg (p := fun r => r.key == tk) rest (by simp [hk])] at h
      have hmu : markUsed now tk (r :: rest) = r :: markUsed now tk rest := by
        simp [markUsed, hk]
      rw [hmu, List.find?_cons_of_neg (p := fun r => r.key == tk) (markUsed now tk rest) (by simp [hk])]
      exact ih h

theorem mem_markUsed_of_used (now : Nat) (tk : String) (keys : List KeyRecord)
    (r f : KeyRecord) (hf : keys.find? (fun x => x.key == tk) = some f)
    (hfu : f.used = false) (hr : r ∈ keys) (hru : r.used = true) :
    r ∈ markUsed now tk keys := by
  induction keys with
  | nil => simp at hr
  | cons a rest ih =>
    cases hk : a.key == tk with
    | true =>
      rw [List.find?_cons_of_pos (p := fun x => x.key == tk) rest hk] at hf
      injection hf with hf
      subst hf
      rcases List.mem_cons.mp hr with he | hm
      · rw [he, hfu] at hru
        exact Bool.noConfusion hru
      · have hmu : markUsed now tk (a :: rest) =
            { a with used := true, usedAt := some now } :: rest := by
          simp [markUsed, hk]
        rw [hmu]
        exact List.mem_cons_of_mem _ hm
    | false =>
      rw [List.find?_cons_of_neg (p := fun x => x.key == tk) rest (by simp [hk])] at hf
      have hmu : markUsed now tk (a :: rest) = a :: markUsed now tk rest := by
        simp [markUsed, hk]
      rw [hmu]
      rcases List.mem_cons.mp hr with he | hm
      · exact he ▸ List.mem_cons_self _ _
      · exact List.mem_cons_of_mem _ (ih hf hm)

theorem used_survives_validar (saveOk : Bool) (now : Nat) (keys : List KeyRecord)
    (key : Option String) (r : KeyRecord) (hr : r ∈ keys) (hru : r.used = true) :
    r ∈ (validar saveOk now keys key).2 := by
  cases key with
  | none => exact hr
  | some k =>
    cases hk : k == "" with
    | true => simpa [validar, hk] using hr
    | false =>
      cases hf : keys.find? (fun x => x.key == jsTrim k) with
      | none => simpa [validar, hk, hf] using hr
      | some found =>
        cases hu : found.used with
        | true => simpa [validar, hk, hf, hu] using hr
        | false =>
          cases hexp : numTruthy found.createdAt &&
              decide (now - found.createdAt.getD 0 > day) with
          | true => simpa [validar, hk, hf, hu, hexp] using hr
          | false =>
            have hm : r ∈ markUsed now (jsTrim k) keys :=
              mem_markUsed_of_used now (jsTrim k) keys r found hf hu hr hru
            cases saveOk with
            | true => simpa [validar, hk, hf, hu, hexp] using hm
            | false => simpa [validar, hk, hf, hu, hexp] using hm

theorem mem_markUsed (now : Nat) (tk : String) (keys : List KeyRecord)
    (r : KeyRecord) (h : r ∈ markUsed now tk keys) :
    r ∈ keys ∨ ∃ x, x ∈ keys ∧ r = { x with used := true, usedAt := some now } := by
  induction keys with
  | nil => simp [markUsed] at h
  | cons a rest ih =>
    cases hk : a.key == tk with
    | true =>
      rw [show markUsed now tk (a :: rest) =
          { a with used := true, usedAt := some now } :: rest by simp [markUsed, hk]] at h
      rcases List.mem_cons.mp h with he | hm
      · exact Or.inr ⟨a, List.mem_cons_self _ _, he⟩
      · exact Or.inl (List.mem_cons_of_mem _ hm)
    | false =>
      rw [show markUsed now tk (a :: rest) = a :: markUsed now tk rest by
        simp [markUsed, hk]] at h
      rcases List.mem_cons.mp h with he | hm
      · exact Or.inl (he ▸ List.mem_cons_self _ _)
      · rcases ih hm with hx | ⟨x, hx, he⟩
        · exact Or.inl (List.mem_cons_of_mem _ hx)
        · exact Or.inr ⟨x, List.mem_cons_of_mem _ hx, he⟩

/-! ### Trimming lemmas -/

theorem dropWhile_head_false {p : Char → Bool} {l t : List Char} {c : Char}
    (h : l.dropWhile p = c :: t) : p c = false := by
  induction l with
  | nil => simp [List.dropWhile] at h
  | cons a l ih =>
    cases ha : p a with
    | true => rw [List.dropWhile_cons_of_pos ha] at h; exact ih h
    | false =>
      rw [List.dropWhile_cons_of_neg (by simp [ha])] at h
      injection h with h1 _
      rw [← h1]; exact ha

theorem dropWhile_idem (p : Char → Bool) (l : List Char) :
    (l.dropWhile p).dropWhile p = l.dropWhile p := by
  cases h : l.dropWhile p with
  | nil => rfl
  | cons c t =>
    exact List.dropWhile_cons_of_neg (by simp [dropWhile_head_false h])

theorem dropWhile_append_last {p : Char → Bool} (c : Char) (hc : p c = false)
    (ys : List Char) : ∃ zs, (ys ++ [c]).dropWhile p = zs ++ [c] := by
  induction ys with
  | nil =>
    refine ⟨[], ?_⟩
    show List.dropWhile p [c] = [c]
    exact List.dropWhile_cons_of_neg (by simp [hc])
  | cons a ys ih =>
    cases ha : p a with
    | true =>
      rcases ih with ⟨zs, hzs⟩
      exact ⟨zs, by rw [List.cons_append, List.dropWhile_cons_of_pos ha]; exact hzs⟩
    | false =>
      exact ⟨a :: ys, by rw [List.cons_append,
        List.dropWhile_cons_of_neg (by simp [ha])]⟩

theorem dropWhile_trimChars (l : List Char) :
    (trimChars l).dropWhile isWs = trimChars l := by
  unfold trimChars
  cases h : l.dropWhile isWs with
  | nil => simp
  | cons c t =>
    have hc : isWs c = false := dropWhile_head_false h
    rcases dropWhile_append_last c hc t.reverse with ⟨zs, hzs⟩
    rw [List.reverse_cons, hzs, List.reverse_append]
    simp [hc]

theorem reverse_trimChars (l : List Char) :
    ((trimChars l).reverse).dropWhile isWs = (trimChars l).reverse := by
  unfold trimChars
  rw [List.reverse_reverse]
  exact dropWhile_idem isWs _

theorem trimChars_idem (l : List Char) : trimChars (trimChars l) = trimChars l := by
  conv_lhs => rw [trimChars]
  rw [dropWhile_trimChars, reverse_trimChars, List.reverse_reverse]

theorem jsTrim_idem (s : String) : jsTrim (jsTrim s) = jsTrim s := by
  unfold jsTrim
  exact congrArg String.mk (trimChars_idem s.data)

theorem jsTrim_empty : jsTrim "" = "" := rfl

/-! ### Sweep lemmas -/

theorem numTruthy_getD (o : Option Nat) (h : numTruthy o = true) : o.getD 0 ≠ 0 := by
  cases o with
  | none => simp [numTruthy] at h
  | some n => simp [numTruthy] at h; simpa using h

theorem keepOnSweep_iff (now : Nat) (r : KeyRecord) :
    keepOnSweep now r = true ↔
      ¬(r.used = false ∧ numTruthy r.createdAt = true ∧
        day ≤ now - r.createdAt.getD 0) := by
  unfold keepOnSweep
  cases hu : r.used with
  | true => simp
  | false =>
    cases hc : numTruthy r.createdAt with
    | false => simp
    | true =>
      have hc0 : r.createdAt.getD 0 ≠ 0 := numTruthy_getD _ hc
      have hd : day = 86400000 := rfl
      simp only [Bool.false_eq_true, if_false, Bool.not_true,
        decide_eq_true_eq, eq_self_iff_true, true_and, not_le, gt_iff_lt]
      omega

theorem sweepSaves_eq_any (now : Nat) (keys : List KeyRecord) :
    sweepSaves now keys = keys.any (fun x => !keepOnSweep now x) := by
  by_cases h : ∀ x ∈ keys, keepOnSweep now x = true
  · have h1 : (List.filter (keepOnSweep now) keys).length = keys.length :=
      List.filter_length_eq_length.mpr h
    have h2 : keys.any (fun x => !keepOnSweep now x) = false := by
      rw [List.any_eq_false]
      intro x hx
      simp [h x hx]
    rw [h2]
    simp [sweepSaves, cleanExpiredKeys, h1]
  · push_neg at h
    rcases h with ⟨x, hx, hxk⟩
    have hxk' : keepOnSweep now x = false := by
      cases hk : keepOnSweep now x
      · rfl
      · exact absurd hk hxk
    have h1 : (List.filter (keepOnSweep now) keys).length ≠ keys.length := by
      intro hlen
      exact hxk (List.filter_length_eq_length.mp hlen x hx)
    have h2 : keys.any (fun x => !keepOnSweep now x) = true :=
      List.any_eq_true.mpr ⟨x, hx, by simp [hxk']⟩
    rw [h2]
    simp only [sweepSaves, cleanExpiredKeys, Bool.not_eq_true']
    simpa using h1

/-! ### Invariant preservation under the three operations -/

theorem recordInv_mono {t t' : Nat} (h : t ≤ t') (r : KeyRecord)
    (hr : recordInv t r) : recordInv t' r :=
  ⟨hr.1, hr.2.1, Nat.le_trans hr.2.2 h⟩

theorem collInv_mono {t t' : Nat} (h : t ≤ t') (keys : List KeyRecord)
    (hk : collInv t keys) : collInv t' keys :=
  fun r hr => recordInv_mono h r (hk r hr)

theorem collInv_markUsed {t now : Nat} (h : t ≤ now) (tk : String)
    (keys : List KeyRecord) (hk : collInv t keys) :
    collInv now (markUsed now tk keys) := by
  intro r hr
  rcases mem_markUsed now tk keys r hr with hm | ⟨x, hx, he⟩
  · exact recordInv_mono h r (hk r hm)
  · subst he
    refine ⟨fun hfalse => by simp at hfalse, fun _ => ⟨now, rfl, ?_⟩, ?_⟩
    · exact Nat.le_trans (hk x hx).2.2 h
    · show x.createdAt.getD 0 ≤ now
      exact Nat.le_trans (hk x hx).2.2 h

theorem collInv_validar {t now : Nat} (h : t ≤ now) (saveOk : Bool)
    (keys : List KeyRecord) (key : Option String) (hk : collInv t keys) :
    collInv now (validar saveOk now keys key).2 := by
  rcases validar_snd saveOk now keys key with he | ⟨k, _, he⟩
  · rw [he]; exact collInv_mono h keys hk
  · rw [he]; exact collInv_markUsed h (jsTrim k) keys hk

theorem collInv_gerar {t now : Nat} (h : t ≤ now) (cfgToken : String)
    (gw : GatewayResult) (saveOk : Bool) (newKey : String)
    (keys : List KeyRecord) (req : GerarReq) (hk : collInv t keys) :
    collInv now (gerar cfgToken gw saveOk newKey now keys req).2 := by
  rcases req with ⟨mt, lk⟩
  rcases gerar_snd cfgToken gw saveOk newKey now keys mt lk with he | ⟨url, link, _, he⟩
  · rw [he]; exact collInv_mono h keys hk
  · rw [he]
    intro r hr
    rcases List.mem_append.mp hr with hm | hm
    · exact recordInv_mono h r (hk r hm)
    · rw [List.mem_singleton] at hm
      subst hm
      exact ⟨fun _ => rfl, fun htrue => by simp at htrue, Nat.le_refl now⟩

theorem collInv_sweep {t now : Nat} (h : t ≤ now) (keys : List KeyRecord)
    (hk : collInv t keys) : collInv now (cleanExpiredKeys now keys) := by
  intro r hr
  exact recordInv_mono h r (hk r (List.mem_filter.mp hr).1)

theorem reachableT_collInv {t : Nat} {keys : List KeyRecord}
    (h : ReachableT t keys) : collInv t keys := by
  induction h with
  | init => intro r hr; simp at hr
  | issue t cfgToken gw saveOk newKey now keys req _ hle ih =>
    exact collInv_gerar hle cfgToken gw saveOk newKey keys req ih
  | redeem t saveOk now keys key _ hle ih =>
    exact collInv_validar hle saveOk keys key ih
  | sweep t now keys _ hle ih =>
    exact collInv_sweep hle keys ih

/-! ### Claim theorems -/

/-- Claim C7: for every collection, the status query returns `total` equal to
the number of records, `used` equal to the number of records with `used=true`,
and `available` equal to the number of unused records, which equals
`total - used`; expired-but-unused records are counted as available (the
`available` count tests only the `used` flag, never `createdAt`), and the
query is a pure read that mutates nothing (`statusOf` takes the collection
and returns only counters). -/
theorem C7_status_counts (keys : List KeyRecord) :
    (statusOf keys).total = keys.length ∧
    (statusOf keys).used = (keys.filter (fun k => k.used)).length ∧
    (statusOf keys).available = (keys.filter (fun k => !k.used)).length ∧
    (statusOf keys).available = (statusOf keys).total - (statusOf keys).used := by
  refine ⟨rfl, rfl, rfl, ?_⟩
  show (keys.filter (fun k => !k.used)).length =
    keys.length - (keys.filter (fun k => k.used)).length
  have h := List.length_eq_length_filter_add (l := keys) (fun k => k.used)
  have h2 : keys.filter (fun x => !(fun k => k.used) x) =
      keys.filter (fun k => !k.used) := rfl
  rw [h2] at h
  omega

/-- Claim C6: when the store save step fails (`saveOk = false`), neither
`/gerar` nor `/validar` returns a success response: the issue handler never
answers `success` and the redeem handler never answers `valid`; both fall
into the catch block's 500 instead. -/
theorem C6_save_failure_no_success (cfgToken : String) (gw : GatewayResult)
    (newKey : String) (now : Nat) (keys : List KeyRecord) (req : GerarReq)
    (now2 : Nat) (keys2 : List KeyRecord) (key2 : Option String) :
    isSuccess (gerar cfgToken gw false newKey now keys req).1 = false ∧
    isValidResp (validar false now2 keys2 key2).1 = false := by
  constructor
  · unfold gerar
    repeat' split
    all_goals first | rfl | simp_all
  · cases key2 with
    | none => rfl
    | some k =>
      cases hk : k == "" with
      | true => simp [validar, hk, isValidResp]
      | false =>
        cases hf : keys2.find? (fun r => r.key == jsTrim k) with
        | none => simp [validar, hk, hf, isValidResp]
        | some found =>
          cases hu : found.used with
          | true => simp [validar, hk, hf, hu, isValidResp]
          | false =>
            cases hexp : numTruthy found.createdAt &&
                decide (now2 - found.createdAt.getD 0 > day) with
            | true => simp [validar, hk, hf, hu, hexp, isValidResp]
            | false => simp [validar, hk, hf, hu, hexp, isValidResp]

/-- Claim C3 counterexample: the claim's removal condition is
"age strictly greater than 24 hours", but the sweep keeps only records with
`createdAt > now - day`, so a record of age exactly 24 hours
(`recBoundary` at time `2 * day`) is removed even though its age is not
strictly greater than the window. -/
theorem C3_cex :
    cleanExpiredKeys (2 * day) [recBoundary] = [] ∧
    ¬(2 * day - recBoundary.createdAt.getD 0 > day) := by
  decide

/-- Claim C3 (amended): a sweep run removes exactly the records with
`used=false`, a truthy (present, nonzero) `createdAt`, and age at least 24
hours (`now - createdAt ≥ 24h`, rather than the claim's strict inequality);
every used record and every record without a truthy `createdAt` survives, and
the sweep persists the collection if and only if at least one record was
removed (its save test compares the filtered length with the initial
length). -/
theorem C3_sweep_characterization (now : Nat) (keys : List KeyRecord)
    (r : KeyRecord) (hr : r ∈ keys) :
    (r ∈ cleanExpiredKeys now keys ↔
      ¬(r.used = false ∧ numTruthy r.createdAt = true ∧
        day ≤ now - r.createdAt.getD 0)) ∧
    sweepSaves now keys = keys.any (fun x => !keepOnSweep now x) := by
  refine ⟨?_, sweepSaves_eq_any now keys⟩
  show r ∈ List.filter (keepOnSweep now) keys ↔ _
  rw [List.mem_filter]
  constructor
  · intro hmem
    exact (keepOnSweep_iff now r).mp hmem.2
  · intro hn
    exact ⟨hr, (keepOnSweep_iff now r).mpr hn⟩

/-- Witness for the amended C3 at a concrete input: a fresh unused record at
time `0` survives the sweep and nothing is persisted. -/
theorem C3_sweep_characterization_witness :
    (recA ∈ cleanExpiredKeys 0 [recA] ↔
      ¬(recA.used = false ∧ numTruthy recA.createdAt = true ∧
        day ≤ 0 - recA.createdAt.getD 0)) ∧
    sweepSaves 0 [recA] = [recA].any (fun x => !keepOnSweep 0 x) :=
  C3_sweep_characterization 0 [recA] recA (by decide)

/-- Claim C10 counterexample: for the whitespace-only key `" "`, `redeem(k)`
and `redeem(trim(k))` differ — the raw key is truthy and proceeds to a
404 not-found lookup, while its trimmed form is empty and is rejected as a
400 missing key. -/
theorem C10_cex :
    validar true 0 [] (some " ") = (.notFound, []) ∧
    validar true 0 [] (some (jsTrim " ")) = (.missingKey, []) ∧
    jsTrim " " = "" := by
  decide

/-- Claim C10 (amended): for every supplied key string `k` whose trimmed form
is nonempty, redeem trims before the lookup, so `redeem(k)` produces the same
response and the same state change as `redeem(trim(k))`; inputs differing only
in surrounding whitespace redeem the same record.  (For whitespace-only keys
the two calls differ, per the counterexample.) -/
theorem C10_trim_agrees (saveOk : Bool) (now : Nat) (keys : List KeyRecord)
    (k : String) (h : jsTrim k ≠ "") :
    validar saveOk now keys (some k) = validar saveOk now keys (some (jsTrim k)) := by
  have hk0 : k ≠ "" := fun he => h (by rw [he]; rfl)
  have hkb : (k == "") = false := by
    simp only [beq_eq_false_iff_ne, ne_eq]
    exact hk0
  have htb : (jsTrim k == "") = false := by
    simp only [beq_eq_false_iff_ne, ne_eq]
    exact h
  simp only [validar, hkb, htb, Bool.false_eq_true, if_false, jsTrim_idem]

/-- Witness for the amended C10 at a concrete input. -/
theorem C10_trim_agrees_witness :
    validar true 0 [] (some " a ") = validar true 0 [] (some (jsTrim " a ")) :=
  C10_trim_agrees true 0 [] " a " (by decide)

/-- Claim C1: for every collection state and every supplied (truthy) key, the
redeem handler with a succeeding save returns exactly the outcome of the
spec's four-way priority list (`specRedeem`): not found → 404 with no
mutation; found and used → invalid "already used" with no mutation; found,
unused, `createdAt` truthy and `now - createdAt > 24h` → invalid "expired"
with no mutation and no deletion; otherwise → mark `used`/`usedAt`, persist,
valid.  The four outcomes are mutually exclusive since the four response
values are distinct constructors. -/
theorem C1_redeem_priority (now : Nat) (keys : List KeyRecord) (k : String)
    (hk : k ≠ "") :
    validar true now keys (some k) = specRedeem now keys k := by
  have hkb : (k == "") = false := by
    simp only [beq_eq_false_iff_ne, ne_eq]
    exact hk
  cases hf : keys.find? (fun r => r.key == jsTrim k) with
  | none => simp [validar, specRedeem, hkb, hf]
  | some found =>
    cases hu : found.used with
    | true => simp [validar, specRedeem, hkb, hf, hu]
    | false =>
      cases hexp : numTruthy found.createdAt &&
          decide (now - found.createdAt.getD 0 > day) with
      | true => simp [validar, specRedeem, hkb, hf, hu, hexp]
      | false => simp [validar, specRedeem, hkb, hf, hu, hexp]

/-- Witness for C1 at a concrete input. -/
theorem C1_redeem_priority_witness :
    validar true 0 [] (some "K") = specRedeem 0 [] "K" :=
  C1_redeem_priority 0 [] "K" (by decide)

/-- Claim C2: for every record that the redeem lookup resolves (the first
record whose id matches the trimmed key) and that is unused and unexpired,
redeeming once returns valid and marks the record used, and redeeming the
same key a second time — at any later time, with any save outcome — returns
invalid "already used" and changes nothing: redemption succeeds exactly once
per key.  In particular this applies to a freshly issued record, whose lookup
resolves to it when its generated key is fresh. -/
theorem C2_redeem_once (saveOk2 : Bool) (now now2 : Nat)
    (keys : List KeyRecord) (k : String) (f : KeyRecord) (hk : k ≠ "")
    (hf : keys.find? (fun r => r.key == jsTrim k) = some f)
    (hu : f.used = false)
    (hexp : ¬(numTruthy f.createdAt = true ∧ day < now - f.createdAt.getD 0)) :
    validar true now keys (some k) = (.valid, markUsed now (jsTrim k) keys) ∧
    validar saveOk2 now2 (markUsed now (jsTrim k) keys) (some k) =
      (.alreadyUsed, markUsed now (jsTrim k) keys) := by
  have hkb : (k == "") = false := by
    simp only [beq_eq_false_iff_ne, ne_eq]
    exact hk
  have hexpb : (numTruthy f.createdAt &&
      decide (now - f.createdAt.getD 0 > day)) = false := by
    cases h1 : numTruthy f.createdAt with
    | false => simp [h1]
    | true =>
      have h2 : ¬(day < now - f.createdAt.getD 0) := fun hlt => hexp ⟨h1, hlt⟩
      rw [Bool.true_and]
      exact decide_eq_false h2
  constructor
  · simp [validar, hkb, hf, hu, hexpb]
  · have hf2 := find?_markUsed now (jsTrim k) keys f hf
    simp [validar, hkb, hf2]

/-- Witness for C2 at a concrete input: the record appended by a successful
issue, redeemed at time `1` and again at time `2`. -/
theorem C2_redeem_once_witness :
    validar true 1 [recA] (some "K") = (.valid, markUsed 1 (jsTrim "K") [recA]) ∧
    validar true 2 (markUsed 1 (jsTrim "K") [recA]) (some "K") =
      (.alreadyUsed, markUsed 1 (jsTrim "K") [recA]) :=
  C2_redeem_once true 1 2 [recA] "K" recA (by decide) (by decide) (by decide)
    (by decide)

/-- Claim C5: for every issue request that passes local validation but whose
gateway call fails (timeout, upstream 401, other thrown error, or a response
missing the `shortened_url` field), no key record is created — the collection
is returned unchanged, which is the observable content of "the gateway call
happens strictly before the store is touched" — and the failure kind maps to
the spec's response and status: timeout → 408, upstream unauthorized → 401,
missing response field → 400, any other gateway failure → 500. -/
theorem C5_gateway_failure (cfgToken : String) (gw : GatewayResult)
    (saveOk : Bool) (newKey : String) (now : Nat) (keys : List KeyRecord)
    (tok link : String) (htok : tok ≠ "") (hteq : tok = cfgToken)
    (hlink : link ≠ "") (hurl : isValidUrl link = true)
    (hgw : gatewayFailed gw = true) :
    (gerar cfgToken gw saveOk newKey now keys ⟨some tok, some link⟩).2 = keys ∧
    (gerar cfgToken gw saveOk newKey now keys ⟨some tok, some link⟩).1 =
      specFailureResponse gw ∧
    gerarStatus (gerar cfgToken gw saveOk newKey now keys ⟨some tok, some link⟩).1 =
      specFailureStatus gw := by
  have h1 : (tok == "") = false := by
    simp only [beq_eq_false_iff_ne, ne_eq]
    exact htok
  have h2 : (tok == cfgToken) = true := by simp [hteq]
  have h3 : (link == "") = false := by
    simp only [beq_eq_false_iff_ne, ne_eq]
    exact hlink
  cases gw with
  | timeout =>
    refine ⟨?_, ?_, ?_⟩ <;>
      simp [gerar, h1, h2, h3, hurl, specFailureResponse, specFailureStatus,
        gerarStatus]
  | unauthorized =>
    refine ⟨?_, ?_, ?_⟩ <;>
      simp [gerar, h1, h2, h3, hurl, specFailureResponse, specFailureStatus,
        gerarStatus]
  | failure =>
    refine ⟨?_, ?_, ?_⟩ <;>
      simp [gerar, h1, h2, h3, hurl, specFailureResponse, specFailureStatus,
        gerarStatus]
  | ok data =>
    cases data with
    | none =>
      refine ⟨?_, ?_, ?_⟩ <;>
        simp [gerar, h1, h2, h3, hurl, specFailureResponse, specFailureStatus,
          gerarStatus]
    | some url => exact absurd hgw (by simp [gatewayFailed])

/-- Witness for C5 at a concrete input: a gateway timeout. -/
theorem C5_gateway_failure_witness :
    (gerar "T" .timeout true "K" 0 []
        ⟨some "T", some "https://example.com"⟩).2 = [] ∧
    (gerar "T" .timeout true "K" 0 []
        ⟨some "T", some "https://example.com"⟩).1 =
      specFailureResponse .timeout ∧
    gerarStatus (gerar "T" .timeout true "K" 0 []
        ⟨some "T", some "https://example.com"⟩).1 =
      specFailureStatus .timeout :=
  C5_gateway_failure "T" .timeout true "K" 0 [] "T" "https://example.com"
    (by decide) rfl (by decide) (by decide) rfl

/-- Claim C8: a record with `used=true` survives — unchanged and hence still
with `used=true` — every single step of the system: issue only appends,
redeem only updates the first matching record when it is unused, and the
sweep's filter keeps every used record.  Proved for every collection state,
which covers every reachable one. -/
theorem C8_used_records_survive (cfgToken : String) (gw : GatewayResult)
    (saveOk : Bool) (newKey : String) (now1 : Nat) (req : GerarReq)
    (saveOk2 : Bool) (now2 : Nat) (key : Option String) (now3 : Nat)
    (keys : List KeyRecord) (r : KeyRecord)
    (hr : r ∈ keys) (hu : r.used = true) :
    r ∈ (gerar cfgToken gw saveOk newKey now1 keys req).2 ∧
    r ∈ (validar saveOk2 now2 keys key).2 ∧
    r ∈ cleanExpiredKeys now3 keys := by
  refine ⟨?_, used_survives_validar saveOk2 now2 keys key r hr hu, ?_⟩
  · rcases req with ⟨mt, lk⟩
    rcases gerar_snd cfgToken gw saveOk newKey now1 keys mt lk with
      he | ⟨url, link, _, he⟩
    · rw [he]; exact hr
    · rw [he]; exact List.mem_append_left _ hr
  · show r ∈ List.filter (keepOnSweep now3) keys
    exact List.mem_filter.mpr ⟨hr, by simp [keepOnSweep, hu]⟩

/-- Witness for C8 at a concrete input: a used record survives one issue, one
redeem of its own key, and one sweep far in the future. -/
theorem C8_used_records_survive_witness :
    recU ∈ (gerar "T" (.ok (some "s")) true "K" 3 [recU] reqA).2 ∧
    recU ∈ (validar true 3 [recU] (some "U")).2 ∧
    recU ∈ cleanExpiredKeys (3 * day) [recU] :=
  C8_used_records_survive "T" (.ok (some "s")) true "K" 3 reqA true 3
    (some "U") (3 * day) [recU] recU (by decide) (by decide)

/-- Claim C9: in every state reachable from the empty store under a
non-decreasing clock, every record is either unused with no `usedAt`, or used
with a `usedAt` that is present and no earlier than its `createdAt`. -/
theorem C9_usedAt_invariant (t : Nat) (keys : List KeyRecord) (r : KeyRecord)
    (h : ReachableT t keys) (hr : r ∈ keys) :
    (r.used = false ∧ r.usedAt = none) ∨
    (r.used = true ∧ r.usedAt.isSome = true ∧
      r.createdAt.getD 0 ≤ r.usedAt.getD 0) := by
  have hi := reachableT_collInv h r hr
  cases hu : r.used with
  | false => exact Or.inl ⟨rfl, hi.1 hu⟩
  | true =>
    rcases hi.2.1 hu with ⟨u, hua, hle⟩
    refine Or.inr ⟨rfl, by simp [hua], ?_⟩
    rw [hua]
    simpa using hle

/-- Witness for C9 at a concrete reachable state: the store after one
successful issue at time `1`. -/
theorem C9_usedAt_invariant_witness :
    (recA.used = false ∧ recA.usedAt = none) ∨
    (recA.used = true ∧ recA.usedAt.isSome = true ∧
      recA.createdAt.getD 0 ≤ recA.usedAt.getD 0) := by
  have h0 : ReachableT 0 [] := .init
  have h1 := ReachableT.issue 0 "T" (.ok (some "s")) true "K" 1 [] reqA h0
    (by decide)
  have e1 : (gerar "T" (.ok (some "s")) true "K" 1 [] reqA).2 = [recA] := by
    decide
  rw [e1] at h1
  exact C9_usedAt_invariant 1 [recA] recA h1 (by decide)

/-- Claim C4 counterexample: the issue handler performs no collision check
against existing records, so issuing twice from the empty store with the same
generated key reaches a state whose id column `["K", "K"]` is duplicated —
id uniqueness is not an invariant of all reachable states. -/
theorem C4_cex :
    Reachable [recA, recA] ∧ ¬([recA, recA].map KeyRecord.key).Nodup := by
  constructor
  · have h0 : Reachable [] := .init
    have h1 := Reachable.issue "T" (.ok (some "s")) true "K" 1 [] reqA h0
    have e1 : (gerar "T" (.ok (some "s")) true "K" 1 [] reqA).2 = [recA] := by
      decide
    rw [e1] at h1
    have h2 := Reachable.issue "T" (.ok (some "s")) true "K" 1 [recA] reqA h1
    have e2 : (gerar "T" (.ok (some "s")) true "K" 1 [recA] reqA).2 =
        [recA, recA] := by decide
    rw [e2] at h2
    exact h2
  · decide

/-- Claim C4 (amended): in every state reachable from the empty store in
which each issue step's generated key differs from every key then in the
collection (the entropy assumption the source relies on in place of a
collision check), the id field is unique: no two distinct records share an
id. -/
theorem C4_unique_ids_fresh (keys : List KeyRecord)
    (h : ReachableFresh keys) : (keys.map KeyRecord.key).Nodup := by
  induction h with
  | init => simp
  | issue cfgToken gw saveOk newKey now keys req hre hfresh ih =>
    rcases gerar_map_key cfgToken gw saveOk newKey now keys req with hm | hm
    · rw [hm]; exact ih
    · rw [hm, List.nodup_append]
      refine ⟨ih, List.nodup_singleton _, ?_⟩
      intro a ha hb
      rw [List.mem_singleton] at hb
      exact hfresh (hb ▸ ha)
  | redeem saveOk now keys key hre ih =>
    rw [validar_map_key]
    exact ih
  | sweep now keys hre ih =>
    have hsub : List.Sublist ((cleanExpiredKeys now keys).map KeyRecord.key)
        (keys.map KeyRecord.key) :=
      List.Sublist.map KeyRecord.key (List.filter_sublist keys)
    exact ih.sublist hsub

/-- Witness for the amended C4 at a concrete state reached by one fresh
issue. -/
theorem C4_unique_ids_fresh_witness : ([recA].map KeyRecord.key).Nodup := by
  have h0 : ReachableFresh [] := .init
  have h1 := ReachableFresh.issue "T" (.ok (some "s")) true "K" 1 [] reqA h0
    (by decide)
  have e1 : (gerar "T" (.ok (some "s")) true "K" 1 [] reqA).2 = [recA] := by
    decide
  rw [e1] at h1
  exact C4_unique_ids_fresh [recA] h1

end KeySystem
